import Mathlib

/-
Verification of the GraphRAG medical knowledge-graph system.

This file gives a shallow embedding, in Lean 4, of the community-detection
and query-processing core of the repository and proves (or refutes) the
frozen specification claims about it.  Python strings are modelled as Lean
strings, Python substring membership as an executable matcher over
character lists, Python dictionaries with insertion order as association
lists, and the external clustering and text-generation collaborators as
explicit inputs.
-/

namespace GraphRAG

/-- Model of Python substring prefix testing: does the pattern occur at the
start of the haystack character list? -/
def isPre : List Char → List Char → Bool
  | [], _ => true
  | _ :: _, [] => false
  | p :: ps, h :: hs => (p == h) && isPre ps hs

/-- Model of the Python expression pattern in haystack over character
lists: does the pattern occur as a contiguous substring? -/
def hasSub : List Char → List Char → Bool
  | [], pat => pat.isEmpty
  | c :: rest, pat => isPre pat (c :: rest) || hasSub rest pat

/-- Model of the Python expression pattern in haystack over strings. -/
def containsStr (hay pat : String) : Bool :=
  hasSub hay.data pat.data

/-- Model of Python str.lower (ASCII case folding suffices for this code
base, whose lexicons are ASCII). -/
def lowerStr (s : String) : String :=
  String.mk (s.data.map Char.toLower)

/-- The semantic substring relation: the pattern occurs contiguously inside
the string. -/
def IsSubstrOf (pat s : String) : Prop :=
  ∃ pre post, s.data = pre ++ pat.data ++ post

/-- Whitespace test used by the model of Python str.split. -/
def isSpaceChar (c : Char) : Bool :=
  (c == ' ') || (c == '\t') || (c == '\n') || (c == '\r')

/-- Accumulating splitter behind the model of Python str.split. -/
def wordsAux : List Char → List Char → List (List Char)
  | [], acc => if acc.isEmpty then [] else [acc.reverse]
  | c :: cs, acc =>
    if isSpaceChar c then
      if acc.isEmpty then wordsAux cs [] else acc.reverse :: wordsAux cs []
    else wordsAux cs (c :: acc)

/-- Model of Python str.split with no separator argument: the whitespace
separated words of a string, with no empty words. -/
def wordsOf (s : String) : List (List Char) :=
  wordsAux s.data []

/-- A graph entity as stored in the entity dictionary and in the graph
nodes list: name, entity type and free-text description
(community_detection.py get_graph_data, query_processing.py graph nodes). -/
structure MedEntity where
  name : String
  etype : String
  description : String
deriving DecidableEq, Repr

/-- The per-name entity metadata record of the entities dictionary in
community_detection.py. -/
structure EntityData where
  etype : String
  description : String
deriving DecidableEq, Repr

/-- A relationship record as extracted from the graph store. -/
structure MedRel where
  source : String
  target : String
  relationship : String
deriving DecidableEq, Repr

/-- A community summary record as consumed by the query phase (theme and
specialty are all that find_relevant_communities reads). -/
structure CommSummary where
  theme : String
  specialty : String
deriving DecidableEq, Repr

/-- The global-intent keyword lexicon of determine_query_type
(query_processing.py lines 62-66). -/
def global_keywords : List String :=
  [ "overview", "summary", "all", "total", "overall", "general",
    "what are", "list", "types of", "categories", "compare",
    "difference between", "how many", "specialties" ]

/-- The local-intent keyword lexicon of determine_query_type
(query_processing.py lines 69-72). -/
def local_keywords : List String :=
  [ "what is", "define", "explain", "describe", "symptoms of",
    "treatment for", "diagnosis of", "causes of", "specific" ]

/-- Number of lexicon phrases occurring as substrings of the lowered
question: the score sums of determine_query_type. -/
def keywordScore (question : String) (kws : List String) : Nat :=
  (kws.filter (fun k => containsStr (lowerStr question) k)).length

/-- Embedding of determine_query_type (query_processing.py lines 56-83):
lower the question, count global and local lexicon hits, return global on a
strict global majority, else local when the local score is positive, else
global. -/
def determine_query_type (question : String) : String :=
  let question_lower := lowerStr question
  let global_score :=
    (global_keywords.filter (fun k => containsStr question_lower k)).length
  let local_score :=
    (local_keywords.filter (fun k => containsStr question_lower k)).length
  if local_score < global_score then "global"
  else if 0 < local_score then "local"
  else "global"

/-- The membership test of find_entities_in_question: the lowered entity
name occurs inside the lowered question. -/
def entityMatches (question : String) (e : MedEntity) : Bool :=
  containsStr (lowerStr question) (lowerStr e.name)

/-- The roster scan loop of find_entities_in_question, accumulating the
matching nodes in roster order. -/
def foundEntities (question : String) : List MedEntity → List MedEntity
  | [] => []
  | n :: ns =>
    if entityMatches question n then n :: foundEntities question ns
    else foundEntities question ns

/-- Embedding of find_entities_in_question (query_processing.py lines
85-99): scan the node roster, keep nodes whose lowered name is a substring
of the lowered question, return the first five matches. -/
def find_entities_in_question (question : String) (nodes : List MedEntity) :
    List MedEntity :=
  (foundEntities question nodes).take 5

/-- The relevance test of find_relevant_communities: some question word
longer than three characters occurs inside the lowered theme or the lowered
specialty. -/
def commRelevant (question : String) (c : CommSummary) : Bool :=
  (wordsOf (lowerStr question)).any (fun w =>
    decide (3 < w.length) &&
      (hasSub (lowerStr c.theme).data w || hasSub (lowerStr c.specialty).data w))

/-- The summary scan loop of find_relevant_communities, accumulating the
ids of relevant communities in iteration order. -/
def relevantComms (question : String) :
    List (String × CommSummary) → List String
  | [] => []
  | p :: ps =>
    if commRelevant question p.2 then p.1 :: relevantComms question ps
    else relevantComms question ps

/-- Embedding of find_relevant_communities (query_processing.py lines
129-147): keep the ids of communities some long-enough question word hits,
in iteration order, truncated to five. -/
def find_relevant_communities (question : String)
    (summaries : List (String × CommSummary)) : List String :=
  (relevantComms question summaries).take 5

/-- Embedding of the community-selection part of answer_global_query
(query_processing.py lines 232-237): the retrieved ids, falling back to the
first ten community ids when no community is relevant. -/
def answer_global_query_comms (question : String)
    (summaries : List (String × CommSummary)) : List String :=
  let r := find_relevant_communities question summaries
  if r.isEmpty then (summaries.map Prod.fst).take 10 else r

/-- The fixed apology answer of answer_local_query for questions naming no
roster entity (query_processing.py line 158). -/
def apology_text : String :=
  "I couldn't find specific medical entities in your question. Please be more specific about conditions, medications, or procedures."

/-- Outcome of answer_local_query, abstracting everything after entity
resolution: either the early-return apology (no entity resolved, produced
before any neighbor, community or text-generation access), or the resolved
entity list handed to the context-assembly and answer-generation path. -/
inductive LocalAnswer where
  | apology (msg : String)
  | answered (entities : List MedEntity)
deriving DecidableEq, Repr

/-- Embedding of the entity-resolution head of answer_local_query
(query_processing.py lines 149-158): resolve entities and return the
apology immediately when none is found. -/
def answer_local_query (question : String) (nodes : List MedEntity) :
    LocalAnswer :=
  let entities := find_entities_in_question question nodes
  if entities.isEmpty then .apology apology_text
  else .answered entities

/-- Outcome of query_medical_knowledge: which branch answered. -/
inductive QueryAnswer where
  | localAns (a : LocalAnswer)
  | globalAns (commIds : List String)
deriving DecidableEq, Repr

/-- Embedding of the routing step of query_medical_knowledge
(query_processing.py lines 391-414): local questions go to
answer_local_query, everything else to answer_global_query. -/
def query_medical_knowledge (question : String) (nodes : List MedEntity)
    (summaries : List (String × CommSummary)) : QueryAnswer :=
  if determine_query_type question = "local" then
    .localAns (answer_local_query question nodes)
  else
    .globalAns (answer_global_query_comms question summaries)

/-- Model of appending one member into the insertion-ordered defaultdict of
member lists built by semantic_community_detection: the first entry with
the given label grows at the right, a fresh label is appended at the end of
the map. -/
def addMember (m : List (Nat × List String)) (l : Nat) (x : String) :
    List (Nat × List String) :=
  match m with
  | [] => [(l, [x])]
  | e :: rest =>
    if e.1 = l then (e.1, e.2 ++ [x]) :: rest else e :: addMember rest l x

/-- The grouping loop of semantic_community_detection over the zipped list
of entity names and cluster labels. -/
def buildCommunities : List (String × Nat) → List (Nat × List String) →
    List (Nat × List String)
  | [], m => m
  | p :: ps, m => buildCommunities ps (addMember m p.2 p.1)

/-- Embedding of the community-construction step of
semantic_community_detection (community_detection.py lines 123-134): the
clustering collaborator's label vector (one label per entity, in the fixed
canonical entity order) is grouped into label-indexed member lists. -/
def semantic_communities (names : List String) (labels : List Nat) :
    List (Nat × List String) :=
  buildCommunities (names.zip labels) []

/-- First-match lookup of a community's member list, mirroring Python
dictionary indexing on the ordered map built by addMember. -/
def getMembers (m : List (Nat × List String)) (l : Nat) : List String :=
  match m with
  | [] => []
  | e :: rest => if e.1 = l then e.2 else getMembers rest l

/-- The entity names at positions carrying a given cluster label. -/
def zipFilter : List (String × Nat) → Nat → List String
  | [], _ => []
  | p :: ps, t => if p.2 = t then p.1 :: zipFilter ps t else zipFilter ps t

/-- The relationships internal to a member list: both endpoints are
members (analyze_communities, community_detection.py lines 162-167). -/
def internalRelList (members : List String) (rels : List MedRel) :
    List MedRel :=
  rels.filter (fun r => members.contains r.source && members.contains r.target)

/-- The number of distinct internal relationship types, the key count of
the internal_relationships defaultdict of analyze_communities. -/
def internalTypeCount (members : List String) (rels : List MedRel) : Nat :=
  ((internalRelList members rels).map (fun r => r.relationship)).dedup.length

/-- Embedding of the density formula of analyze_communities
(community_detection.py line 192): distinct internal relationship types
divided by the larger of one and the possible member-pair count, in exact
rational arithmetic. -/
def communityDensity (members : List String) (rels : List MedRel) : ℚ :=
  (internalTypeCount members rels : ℚ) /
    max 1 ((members.length : ℚ) * ((members.length : ℚ) - 1) / 2)

/-- The per-category keyword lexicon of determine_medical_specialty
(community_detection.py lines 202-214), in declaration order. -/
def specialtyKeywords : List (String × List String) :=
  [ ("Cardiology",
      [ "heart", "cardiac", "aortic", "hypertension", "ejection fraction",
        "valve", "coronary", "myocardial", "arrhythmia" ]),
    ("Gastroenterology",
      [ "liver", "hepatic", "cirrhosis", "abdomen", "hernia", "ascites",
        "bowel", "intestine", "gastric", "colon", "gi", "endoscopy" ]),
    ("Orthopedics",
      [ "hip", "knee", "bone", "joint", "replacement", "osteoporosis",
        "fracture", "orthopedic", "prosthesis" ]),
    ("Pharmacology",
      [ "medication", "drug", "treatment", "therapy", "prescription",
        "dose", "mg", "administration" ]),
    ("Laboratory Medicine",
      [ "lab", "test", "value", "anion gap", "levels", "blood", "urine",
        "serum", "plasma", "culture" ]),
    ("Pulmonology",
      [ "lung", "pulmonary", "respiratory", "sarcoidosis", "breathing",
        "oxygen", "ventilation" ]),
    ("Nephrology",
      [ "kidney", "renal", "failure", "dialysis", "creatinine", "urinary",
        "nephro" ]),
    ("Endocrinology",
      [ "insulin", "diabetes", "hormone", "dextrose", "glucose", "thyroid",
        "endocrine" ]),
    ("Hematology",
      [ "blood", "anemia", "platelet", "hemoglobin", "coagulation",
        "hematocrit", "leukocyte" ]),
    ("Neurology",
      [ "brain", "neurological", "seizure", "stroke", "neuro", "cognitive" ]),
    ("Infectious Disease",
      [ "infection", "antibiotic", "sepsis", "fever", "culture",
        "bacterial", "viral" ]) ]

/-- Metadata lookup in the entities dictionary, Python entities.get(name). -/
def entityLookup (entities : List (String × EntityData)) (name : String) :
    Option EntityData :=
  match entities with
  | [] => none
  | p :: rest => if p.1 = name then some p.2 else entityLookup rest name

/-- The lowered text scored by determine_medical_specialty for one member:
its name, a space and its description, missing metadata contributing an
empty description. -/
def entityText (entities : List (String × EntityData)) (name : String) :
    String :=
  lowerStr (name ++ " " ++
    (match entityLookup entities name with
     | some d => d.description
     | none => ""))

/-- Number of lexicon keywords occurring in a lowered member text: how
often determine_medical_specialty increments one category for one member. -/
def hitCount (text : String) (kws : List String) : Nat :=
  (kws.filter (fun k => containsStr text k)).length

/-- Model of incrementing one key of the insertion-ordered
specialty_scores defaultdict by a positive amount: the first entry with the
key grows, a fresh key is appended at the end. -/
def bumpScore (m : List (String × Nat)) (k : String) (d : Nat) :
    List (String × Nat) :=
  match m with
  | [] => [(k, d)]
  | e :: rest =>
    if e.1 = k then (e.1, e.2 + d) :: rest else e :: bumpScore rest k d

/-- First-match lookup in the ordered score map, zero for absent keys:
defaultdict int read semantics. -/
def getScore (m : List (String × Nat)) (k : String) : Nat :=
  match m with
  | [] => 0
  | e :: rest => if e.1 = k then e.2 else getScore rest k

/-- The inner category loop of determine_medical_specialty for one member
text: each category whose keywords hit the text bumps its score by the hit
count, categories with no hit never touch the map. -/
def scoreFold (cats : List (String × List String)) (sc : List (String × Nat))
    (text : String) : List (String × Nat) :=
  match cats with
  | [] => sc
  | c :: cs =>
    scoreFold cs
      (if hitCount text c.2 = 0 then sc else bumpScore sc c.1 (hitCount text c.2))
      text

/-- The outer member loop of determine_medical_specialty. -/
def specialtyScoresAux (names : List String)
    (entities : List (String × EntityData)) (sc : List (String × Nat)) :
    List (String × Nat) :=
  match names with
  | [] => sc
  | n :: rest =>
    specialtyScoresAux rest entities
      (scoreFold specialtyKeywords sc (entityText entities n))

/-- The specialty_scores map of determine_medical_specialty after scanning
every member, keys in first-touch order. -/
def specialtyScores (names : List String)
    (entities : List (String × EntityData)) : List (String × Nat) :=
  specialtyScoresAux names entities []

/-- Model of the Python max with a key function over nonempty iteration:
the left fold keeps the current element unless a later one is strictly
larger, so the first maximal element of the iteration wins. -/
def maxFold (p : String × Nat) : List (String × Nat) → String × Nat
  | [] => p
  | q :: qs => maxFold (if p.2 < q.2 then q else p) qs

/-- Model of Python max(scores.items(), key by value) over the ordered
score map, none on an empty map. -/
def pyMaxBySnd : List (String × Nat) → Option (String × Nat)
  | [] => none
  | p :: rest => some (maxFold p rest)

/-- The total keyword-hit count one category accumulates over all members:
the order-free cumulative score of the claim. -/
def categoryScore (names : List String)
    (entities : List (String × EntityData)) (kws : List String) : Nat :=
  match names with
  | [] => 0
  | n :: rest => hitCount (entityText entities n) kws + categoryScore rest entities kws

/-- Embedding of determine_medical_specialty (community_detection.py lines
198-230): build the first-touch-ordered score map and return the key of
its first maximal entry, or General Medicine when the map is empty. -/
def determine_medical_specialty (names : List String)
    (entities : List (String × EntityData)) : String :=
  match pyMaxBySnd (specialtyScores names entities) with
  | some p => p.1
  | none => "General Medicine"

/-- The type read for the conditions list comprehension of
generate_community_theme: entities.get(name, empty).get(type), a missing
record never matching CONDITION (modelled as the empty string). -/
def typeOfName (entities : List (String × EntityData)) (name : String) :
    String :=
  match entityLookup entities name with
  | some d => d.etype
  | none => ""

/-- The type read for the type_counts defaultdict of
generate_community_theme, whose missing-record default is UNKNOWN. -/
def typeOfNameD (entities : List (String × EntityData)) (name : String) :
    String :=
  match entityLookup entities name with
  | some d => d.etype
  | none => "UNKNOWN"

/-- The number of members of a given entity type, the type_counts read of
generate_community_theme. -/
def typeCount (names : List String) (entities : List (String × EntityData))
    (t : String) : Nat :=
  (names.filter (fun n => typeOfNameD entities n == t)).length

/-- The conditions list comprehension of generate_community_theme: the
member names whose entity type is CONDITION, in member order. -/
def conditionNames (names : List String)
    (entities : List (String × EntityData)) : List String :=
  names.filter (fun n => typeOfName entities n == "CONDITION")

/-- Does any name of the list contain any of the keywords, the raw
(uncased) any-generator test of generate_community_theme. -/
def anyNameHas (ns : List String) (kws : List String) : Bool :=
  ns.any (fun n => kws.any (fun k => containsStr n k))

/-- Embedding of generate_community_theme (community_detection.py lines
232-273): the fixed precedence cascade over entity types, inspecting only
the names of CONDITION members for the four domain keyword groups. -/
def generate_community_theme (names : List String)
    (entities : List (String × EntityData)) : String :=
  if 0 < typeCount names entities "CONDITION" then
    if anyNameHas (conditionNames names entities)
        [ "heart", "cardiac", "aortic" ] then
      "Cardiovascular conditions and treatments"
    else if anyNameHas (conditionNames names entities)
        [ "liver", "hepatic", "cirrhosis" ] then
      "Liver diseases and complications"
    else if anyNameHas (conditionNames names entities)
        [ "hip", "knee", "bone" ] then
      "Orthopedic conditions and procedures"
    else if anyNameHas (conditionNames names entities)
        [ "blood", "anemia", "hemoglobin" ] then
      "Hematological conditions and blood disorders"
    else
      "Medical conditions (" ++
        toString (conditionNames names entities).length ++ " conditions)"
  else if 0 < typeCount names entities "MEDICATION" then
    "Medications and treatments (" ++
      toString (typeCount names entities "MEDICATION") ++ " medications)"
  else if 0 < typeCount names entities "ANATOMY" then
    "Anatomical structures (" ++
      toString (typeCount names entities "ANATOMY") ++ " structures)"
  else if 0 < typeCount names entities "LAB_VALUE" then
    "Laboratory values and tests (" ++
      toString (typeCount names entities "LAB_VALUE") ++ " lab values)"
  else if 0 < typeCount names entities "PROCEDURE" then
    "Medical procedures (" ++
      toString (typeCount names entities "PROCEDURE") ++ " procedures)"
  else
    "Mixed medical entities (" ++ toString names.length ++ " entities)"

/-- The accumulator of the candidate-k loop of the community-detection
main function (community_detection.py lines 452-468). -/
structure BestState where
  best_communities : Option (List (Nat × List String))
  best_quality : ℚ
  best_n_clusters : Nat
deriving DecidableEq, Repr

/-- Average community size of a partition, the avg_size expression of the
candidate loop, in exact rational arithmetic. -/
def avgSize (comms : List (Nat × List String)) : ℚ :=
  ((comms.map (fun c => (c.2.length : ℚ))).sum) / (comms.length : ℚ)

/-- Embedding of the candidate-selection loop of the community-detection
main function: each run is a candidate k together with the partition and
quality score the clustering collaborator produced for it; a run is adopted
when its quality strictly beats the best so far and its average community
size exceeds five; the initial state carries no partition, quality minus
one and the default k of fifteen. -/
def clusterSelect (runs : List (Nat × (List (Nat × List String) × ℚ))) :
    BestState :=
  runs.foldl
    (fun st r =>
      if st.best_quality < r.2.2 ∧ 5 < avgSize r.2.1 then
        ⟨some r.2.1, r.2.2, r.1⟩
      else st)
    ⟨none, -1, 15⟩

/-- The community record consumed by summarize_community_with_claude. -/
structure CommunityData where
  id : String
  specialty : String
  theme : String
  size : Nat
deriving DecidableEq, Repr

/-- Outcome of the blocking call to the text-generation collaborator:
either an exception or a raw response string. -/
inductive LLMOutcome where
  | failure (msg : String)
  | success (response : String)
deriving DecidableEq, Repr

/-- Boolean view of an LLM outcome: did the call itself succeed? -/
def llmCallOk : LLMOutcome → Bool
  | .failure _ => false
  | .success _ => true

/-- The fields json.loads recovers from a well-formed response in
summarize_community_with_claude; a missing field falls back to a default. -/
structure ParsedJson where
  title : Option String
  summary : Option String
deriving DecidableEq, Repr

/-- The record summarize_community_with_claude returns for one community. -/
structure SummaryRecord where
  title : String
  summary : String
  success : Bool
deriving DecidableEq, Repr

/-- The deterministic fallback title of summarize_community_with_claude. -/
def fallbackTitle (cd : CommunityData) : String :=
  "Medical Community " ++ cd.id ++ " - " ++ cd.specialty

/-- The deterministic fallback summary of summarize_community_with_claude,
built from the community's size, specialty and theme. -/
def fallbackSummary (cd : CommunityData) : String :=
  "This community contains " ++ toString cd.size ++
    " medical entities related to " ++ cd.specialty ++ ". Theme: " ++ cd.theme

/-- Embedding of summarize_community_with_claude
(community_summarisation.py lines 115-150): an exception from the call is
caught and replaced by the deterministic fallback record with the success
flag false; a response whose extracted JSON fails to parse keeps the raw
response as the summary under a fallback-style title with the success flag
true; a parsed response fills missing fields with defaults, success true. -/
def summarize_community_with_claude (cd : CommunityData)
    (outcome : LLMOutcome) (parsed : Option ParsedJson) : SummaryRecord :=
  match outcome with
  | .failure _ => ⟨fallbackTitle cd, fallbackSummary cd, false⟩
  | .success response =>
    match parsed with
    | some pj =>
      ⟨pj.title.getD ("Medical Community " ++ cd.id),
        pj.summary.getD "Summary not available", true⟩
    | none => ⟨fallbackTitle cd, response, true⟩

/-- The keyword list of one specialty category, looked up by category
name in the declaration-ordered lexicon. -/
def keywordsOfCat (cat : String) : List String :=
  match specialtyKeywords.lookup cat with
  | some kws => kws
  | none => []

/-- Does some CONDITION member's name contain some of the given keywords:
the propositional form of the theme cascade's any-generator tests. -/
def CondNameMatch (names : List String) (ents : List (String × EntityData))
    (kws : List String) : Prop :=
  ∃ n ∈ conditionNames names ents, ∃ k ∈ kws, IsSubstrOf k n

/-- A concrete two-member community: one liver entity, one heart entity,
both conditions, both with empty descriptions. -/
def c7names : List String := [ "liver", "heart" ]

/-- Metadata for c7names. -/
def c7ents : List (String × EntityData) :=
  [ ("liver", ⟨"CONDITION", ""⟩), ("heart", ⟨"CONDITION", ""⟩) ]

/-- A concrete one-member community whose CONDITION member mentions the
heart only in its description, never in its name. -/
def c8ents : List (String × EntityData) :=
  [ ("hf", ⟨"CONDITION", "heart failure"⟩) ]

/-- A concrete one-member community whose CONDITION member names an aortic
disease. -/
def w8ents : List (String × EntityData) :=
  [ ("aortic stenosis", ⟨"CONDITION", ""⟩) ]

/-- A concrete candidate loop input whose four candidate partitions all
have average community size at most five, so that no candidate passes the
size constraint of the selection loop. -/
def c1runs : List (Nat × (List (Nat × List String) × ℚ)) :=
  [ (10, ([ (0, [ "a", "b" ]), (1, [ "c" ]) ], 3/10)),
    (15, ([ (0, [ "a" ]), (1, [ "b", "c" ]) ], 2/5)),
    (20, ([ (0, [ "a" ]), (1, [ "b" ]), (2, [ "c" ]) ], 1/2)),
    (25, ([ (0, [ "a", "b", "c" ]) ], 1/4)) ]

/-- A concrete question naming the eight roster entities of w4nodes. -/
def w4question : String := "aa bb cc dd ee ff gg hh"

/-- A concrete eight-entity roster, every name occurring in w4question. -/
def w4nodes : List MedEntity :=
  [ ⟨"aa", "CONDITION", ""⟩, ⟨"bb", "CONDITION", ""⟩,
    ⟨"cc", "MEDICATION", ""⟩, ⟨"dd", "MEDICATION", ""⟩,
    ⟨"ee", "ANATOMY", ""⟩, ⟨"ff", "LAB_VALUE", ""⟩,
    ⟨"gg", "PROCEDURE", ""⟩, ⟨"hh", "PROCEDURE", ""⟩ ]

/-- A concrete community record for exercising the summarization paths. -/
def c9data : CommunityData :=
  ⟨"3", "Cardiology", "Cardiovascular conditions", 12⟩

theorem isPre_iff (pat hay : List Char) :
    isPre pat hay = true ↔ ∃ rest, hay = pat ++ rest := by
  induction pat generalizing hay with
  | nil => simp [isPre]
  | cons p ps ih =>
    cases hay with
    | nil => simp [isPre]
    | cons h hs =>
      simp only [isPre, Bool.and_eq_true, beq_iff_eq, ih]
      constructor
      · rintro ⟨rfl, rest, rfl⟩
        exact ⟨rest, rfl⟩
      · rintro ⟨rest, hrest⟩
        rw [List.cons_append] at hrest
        cases hrest
        exact ⟨rfl, rest, rfl⟩

theorem hasSub_iff (hay pat : List Char) :
    hasSub hay pat = true ↔ ∃ pre post, hay = pre ++ pat ++ post := by
  induction hay with
  | nil =>
    simp only [hasSub, List.isEmpty_iff]
    constructor
    · rintro rfl
      exact ⟨[], [], rfl⟩
    · rintro ⟨pre, post, h⟩
      rcases List.append_eq_nil.mp (List.append_eq_nil.mp h.symm).1 with ⟨-, h2⟩
      exact h2
  | cons c rest ih =>
    simp only [hasSub, Bool.or_eq_true, ih, isPre_iff]
    constructor
    · rintro (⟨r, hr⟩ | ⟨pre, post, hp⟩)
      · exact ⟨[], r, by simpa using hr⟩
      · exact ⟨c :: pre, post, by simp [hp]⟩
    · rintro ⟨pre, post, hp⟩
      cases pre with
      | nil =>
        left
        exact ⟨post, by simpa using hp⟩
      | cons d ds =>
        right
        rw [List.cons_append, List.cons_append] at hp
        cases hp
        exact ⟨ds, post, by simp⟩

theorem containsStr_iff (hay pat : String) :
    containsStr hay pat = true ↔ IsSubstrOf pat hay := by
  exact hasSub_iff hay.data pat.data

theorem foundEntities_eq_filter (q : String) (nodes : List MedEntity) :
    foundEntities q nodes = nodes.filter (entityMatches q) := by
  induction nodes with
  | nil => rfl
  | cons n ns ih =>
    by_cases h : entityMatches q n
    · simp [foundEntities, List.filter_cons, h, ih]
    · simp [foundEntities, List.filter_cons, h, ih]

theorem relevantComms_eq_filter (q : String)
    (summaries : List (String × CommSummary)) :
    relevantComms q summaries =
      (summaries.filter (fun p => commRelevant q p.2)).map Prod.fst := by
  induction summaries with
  | nil => rfl
  | cons p ps ih =>
    by_cases h : commRelevant q p.2
    · simp [relevantComms, List.filter_cons, h, ih]
    · simp [relevantComms, List.filter_cons, h, ih]

theorem getMembers_addMember_same (m : List (Nat × List String)) (l : Nat)
    (x : String) :
    getMembers (addMember m l x) l = getMembers m l ++ [x] := by
  induction m with
  | nil => simp [addMember, getMembers]
  | cons e rest ih =>
    by_cases h : e.1 = l
    · simp only [addMember, if_pos h, getMembers, if_pos h]
    · simp only [addMember, if_neg h, getMembers, if_neg h]
      exact ih

theorem getMembers_addMember_ne (m : List (Nat × List String)) (l l' : Nat)
    (x : String) (h : l' ≠ l) :
    getMembers (addMember m l x) l' = getMembers m l' := by
  induction m with
  | nil =>
    simp only [addMember, getMembers]
    rw [if_neg (fun hc => h hc.symm)]
  | cons e rest ih =>
    by_cases he : e.1 = l
    · have hne : ¬ e.1 = l' := by
        rw [he]
        exact fun hc => h hc.symm
      simp only [addMember, if_pos he, getMembers, if_neg hne]
    · simp only [addMember, if_neg he, getMembers]
      by_cases h2 : e.1 = l'
      · rw [if_pos h2, if_pos h2]
      · rw [if_neg h2, if_neg h2]
        exact ih

theorem getMembers_buildCommunities (ps : List (String × Nat))
    (m : List (Nat × List String)) (l : Nat) :
    getMembers (buildCommunities ps m) l = getMembers m l ++ zipFilter ps l := by
  induction ps generalizing m with
  | nil => simp [buildCommunities, zipFilter]
  | cons p ps ih =>
    simp only [buildCommunities]
    rw [ih]
    by_cases h : p.2 = l
    · subst h
      rw [getMembers_addMember_same]
      simp [zipFilter, List.append_assoc]
    · rw [getMembers_addMember_ne _ _ _ _ (fun hc => h hc.symm)]
      simp [zipFilter, h]

theorem keys_addMember (m : List (Nat × List String)) (l : Nat) (x : String) :
    (addMember m l x).map Prod.fst =
      if l ∈ m.map Prod.fst then m.map Prod.fst
      else m.map Prod.fst ++ [l] := by
  induction m with
  | nil => simp [addMember]
  | cons e rest ih =>
    by_cases h : e.1 = l
    · simp only [addMember, if_pos h, List.map_cons]
      rw [if_pos (by rw [← h]; exact List.mem_cons_self _ _)]
    · simp only [addMember, if_neg h, List.map_cons, ih]
      by_cases h2 : l ∈ rest.map Prod.fst
      · rw [if_pos h2, if_pos (List.mem_cons_of_mem _ h2)]
      · have hnc : l ∉ e.1 :: rest.map Prod.fst := by
          intro hc
          rcases List.mem_cons.mp hc with hc1 | hc2
          · exact h hc1.symm
          · exact h2 hc2
        rw [if_neg h2, if_neg hnc]
        simp

theorem keys_nodup_addMember (m : List (Nat × List String)) (l : Nat)
    (x : String) (h : (m.map Prod.fst).Nodup) :
    ((addMember m l x).map Prod.fst).Nodup := by
  rw [keys_addMember]
  by_cases h2 : l ∈ m.map Prod.fst
  · rw [if_pos h2]
    exact h
  · rw [if_neg h2, List.nodup_append]
    refine ⟨h, List.nodup_singleton _, ?_⟩
    intro a ha hb
    rw [List.mem_singleton] at hb
    subst hb
    exact h2 ha

theorem keys_nodup_buildCommunities (ps : List (String × Nat))
    (m : List (Nat × List String)) (h : (m.map Prod.fst).Nodup) :
    ((buildCommunities ps m).map Prod.fst).Nodup := by
  induction ps generalizing m with
  | nil => exact h
  | cons p ps ih => exact ih _ (keys_nodup_addMember _ _ _ h)

theorem entry_getMembers (m : List (Nat × List String))
    (h : (m.map Prod.fst).Nodup) (c : Nat × List String) (hc : c ∈ m) :
    c.2 = getMembers m c.1 := by
  induction m with
  | nil => cases hc
  | cons e rest ih =>
    rw [List.map_cons, List.nodup_cons] at h
    rcases List.mem_cons.mp hc with rfl | hin
    · simp [getMembers]
    · have hne : ¬ e.1 = c.1 := by
        intro hc2
        exact h.1 (hc2 ▸ List.mem_map_of_mem Prod.fst hin)
      simp only [getMembers, if_neg hne]
      exact ih h.2 hin

theorem exists_entry_of_getMembers_ne (m : List (Nat × List String)) (l : Nat)
    (h : getMembers m l ≠ []) :
    ∃ c ∈ m, c.1 = l ∧ c.2 = getMembers m l := by
  induction m with
  | nil => exact absurd rfl h
  | cons e rest ih =>
    by_cases he : e.1 = l
    · refine ⟨e, List.mem_cons_self _ _, he, ?_⟩
      simp [getMembers, he]
    · simp only [getMembers, if_neg he] at h ⊢
      rcases ih h with ⟨c, hc, h1, h2⟩
      exact ⟨c, List.mem_cons_of_mem _ hc, h1, h2⟩

theorem zipFilter_subset (ps : List (String × Nat)) (t : Nat) (x : String)
    (h : x ∈ zipFilter ps t) : x ∈ ps.map Prod.fst := by
  induction ps with
  | nil => cases h
  | cons p ps ih =>
    rw [List.map_cons]
    simp only [zipFilter] at h
    by_cases h2 : p.2 = t
    · rw [if_pos h2] at h
      rcases List.mem_cons.mp h with rfl | h3
      · exact List.mem_cons_self _ _
      · exact List.mem_cons_of_mem _ (ih h3)
    · rw [if_neg h2] at h
      exact List.mem_cons_of_mem _ (ih h)

theorem mem_zipFilter_self (names : List String) (labels : List Nat)
    (x : String) (hx : x ∈ names) (hlen : labels.length = names.length) :
    ∃ t ∈ labels, x ∈ zipFilter (names.zip labels) t := by
  induction names generalizing labels with
  | nil => cases hx
  | cons n ns ih =>
    cases labels with
    | nil => simp at hlen
    | cons l ls =>
      rcases List.mem_cons.mp hx with rfl | hxs
      · refine ⟨l, List.mem_cons_self _ _, ?_⟩
        simp [zipFilter]
      · have hlen2 : ls.length = ns.length := by simpa using hlen
        rcases ih ls hxs hlen2 with ⟨t, ht, hmem⟩
        refine ⟨t, List.mem_cons_of_mem _ ht, ?_⟩
        simp only [List.zip_cons_cons, zipFilter]
        by_cases h2 : l = t
        · rw [if_pos h2]
          exact List.mem_cons_of_mem _ hmem
        · rw [if_neg h2]
          exact hmem

theorem zipFilter_label_unique (ps : List (String × Nat))
    (h : (ps.map Prod.fst).Nodup) (x : String) (t1 t2 : Nat)
    (h1 : x ∈ zipFilter ps t1) (h2 : x ∈ zipFilter ps t2) : t1 = t2 := by
  induction ps with
  | nil => cases h1
  | cons p ps ih =>
    rw [List.map_cons, List.nodup_cons] at h
    simp only [zipFilter] at h1 h2
    by_cases e1 : p.2 = t1 <;> by_cases e2 : p.2 = t2
    · rw [← e1, ← e2]
    · rw [if_pos e1] at h1
      rw [if_neg e2] at h2
      rcases List.mem_cons.mp h1 with rfl | h1r
      · exact absurd (zipFilter_subset _ _ _ h2) h.1
      · exact ih h.2 h1r h2
    · rw [if_neg e1] at h1
      rw [if_pos e2] at h2
      rcases List.mem_cons.mp h2 with rfl | h2r
      · exact absurd (zipFilter_subset _ _ _ h1) h.1
      · exact ih h.2 h1 h2r
    · rw [if_neg e1] at h1
      rw [if_neg e2] at h2
      exact ih h.2 h1 h2

/-- C2: for any entity roster without duplicate names and any cluster label
vector with one label per entity, the communities built by
semantic_community_detection form a partition of the roster: an entity name
is a member of some community exactly when it is in the roster, the member
lists of communities with different ids are disjoint, and no community id
occurs twice. -/
theorem semantic_communities_partition (names : List String)
    (labels : List Nat) (hnd : names.Nodup)
    (hlen : labels.length = names.length) :
    (∀ x, x ∈ names ↔ ∃ c ∈ semantic_communities names labels, x ∈ c.2) ∧
    (∀ c1 ∈ semantic_communities names labels,
       ∀ c2 ∈ semantic_communities names labels,
         c1.1 ≠ c2.1 → ∀ x, x ∈ c1.2 → x ∉ c2.2) ∧
    ((semantic_communities names labels).map Prod.fst).Nodup := by
  have hzf : (names.zip labels).map Prod.fst = names :=
    List.map_fst_zip _ _ hlen.ge
  have hgm : ∀ l, getMembers (semantic_communities names labels) l =
      zipFilter (names.zip labels) l := by
    intro l
    rw [semantic_communities, getMembers_buildCommunities]
    simp [getMembers]
  have hnodup : ((semantic_communities names labels).map Prod.fst).Nodup :=
    keys_nodup_buildCommunities _ [] (by simp)
  refine ⟨?_, ?_, hnodup⟩
  · intro x
    constructor
    · intro hx
      rcases mem_zipFilter_self names labels x hx hlen with ⟨t, ht, hmem⟩
      have hne : getMembers (semantic_communities names labels) t ≠ [] := by
        rw [hgm]
        intro h0
        rw [h0] at hmem
        cases hmem
      rcases exists_entry_of_getMembers_ne _ _ hne with ⟨c, hc, hkey, hval⟩
      refine ⟨c, hc, ?_⟩
      rw [hval, hgm]
      exact hmem
    · rintro ⟨c, hc, hx⟩
      have he := entry_getMembers _ hnodup c hc
      rw [he, hgm] at hx
      have hsub := zipFilter_subset _ _ _ hx
      rw [hzf] at hsub
      exact hsub
  · intro c1 hc1 c2 hc2 hne x hx1 hx2
    have e1 := entry_getMembers _ hnodup c1 hc1
    have e2 := entry_getMembers _ hnodup c2 hc2
    rw [e1, hgm] at hx1
    rw [e2, hgm] at hx2
    exact hne (zipFilter_label_unique _ (by rw [hzf]; exact hnd) x _ _ hx1 hx2)

/-- Witness for semantic_communities_partition on a three-entity roster
with labels zero, one, zero. -/
theorem semantic_communities_partition_witness :
    ([ "a", "b", "c" ] : List String).Nodup ∧
    ([ 0, 1, 0 ] : List Nat).length = ([ "a", "b", "c" ] : List String).length ∧
    (∀ x, x ∈ ([ "a", "b", "c" ] : List String) ↔
      ∃ c ∈ semantic_communities [ "a", "b", "c" ] [ 0, 1, 0 ], x ∈ c.2) :=
  ⟨by decide, by decide,
    (semantic_communities_partition [ "a", "b", "c" ] [ 0, 1, 0 ]
      (by decide) (by decide)).1⟩

/-- C1: the candidate loop keeps `best_communities = None` together with the
default `best_n_clusters = 15` whenever no candidate's average community
size exceeds 5; the subsequent `analyze_communities(best_communities, ...)`
call of `main` then dereferences `None` instead of producing a partition for
the default k, so the claimed fallback never yields a usable partition.
This theorem evaluates the selection loop at a failing input on which all
four candidates violate the size constraint. -/
theorem cluster_select_no_candidate_crash :
    (∀ r ∈ c1runs, ¬ 5 < avgSize r.2.1) ∧
    clusterSelect c1runs = ⟨none, -1, 15⟩ := by
  constructor
  · intro r hr
    simp only [c1runs, List.mem_cons, List.not_mem_nil, or_false] at hr
    rcases hr with rfl | rfl | rfl | rfl <;> norm_num [avgSize]
  · norm_num [clusterSelect, c1runs, List.foldl, avgSize]

/-- C3 counterexample: the question "what is the overview" scores exactly
one global-lexicon phrase and one local-lexicon phrase, yet the router
classifies it as local, refuting the claim that equal nonzero scores
classify as global. -/
theorem router_tie_is_local_cex :
    keywordScore "what is the overview" global_keywords = 1 ∧
    keywordScore "what is the overview" local_keywords = 1 ∧
    determine_query_type "what is the overview" = "local" := by
  refine ⟨by decide, by decide, by decide⟩

/-- C3 amended: the router classifies a question as global when the
global-lexicon score strictly exceeds the local-lexicon score, as local
when the local score is positive and not exceeded by the global score
(so equal nonzero scores classify as local), and as global when both
scores are zero. -/
theorem determine_query_type_policy (q : String) :
    (keywordScore q local_keywords < keywordScore q global_keywords →
        determine_query_type q = "global") ∧
    (0 < keywordScore q local_keywords →
        ¬ keywordScore q local_keywords < keywordScore q global_keywords →
        determine_query_type q = "local") ∧
    (keywordScore q local_keywords = 0 →
        keywordScore q global_keywords = 0 →
        determine_query_type q = "global") := by
  have hd : determine_query_type q =
      if keywordScore q local_keywords < keywordScore q global_keywords then
        "global"
      else if 0 < keywordScore q local_keywords then "local"
      else "global" := rfl
  refine ⟨fun h => ?_, fun h1 h2 => ?_, fun h1 h2 => ?_⟩
  · rw [hd, if_pos h]
  · rw [hd, if_neg h2, if_pos h1]
  · rw [hd, if_neg (by omega), if_neg (by omega)]

/-- Witness for the amended router policy: "what is flu" has local score
one, global score zero, and classifies as local. -/
theorem determine_query_type_policy_witness :
    0 < keywordScore "what is flu" local_keywords ∧
    ¬ keywordScore "what is flu" local_keywords <
        keywordScore "what is flu" global_keywords ∧
    determine_query_type "what is flu" = "local" :=
  ⟨by decide, by decide,
    (determine_query_type_policy "what is flu").2.1 (by decide) (by decide)⟩

/-- C4: an entity is found by find_entities_in_question exactly when its
lowered name occurs inside the lowered question; the result is the first
five matches in roster order (a sublist of the roster); and when at least
eight roster entities match, exactly five are returned. -/
theorem find_entities_spec (q : String) (nodes : List MedEntity) :
    (∀ e, e ∈ foundEntities q nodes ↔
        e ∈ nodes ∧ IsSubstrOf (lowerStr e.name) (lowerStr q)) ∧
    find_entities_in_question q nodes =
      (nodes.filter (entityMatches q)).take 5 ∧
    (find_entities_in_question q nodes).Sublist nodes ∧
    (8 ≤ (foundEntities q nodes).length →
      (find_entities_in_question q nodes).length = 5) := by
  have hf := foundEntities_eq_filter q nodes
  refine ⟨?_, ?_, ?_, ?_⟩
  · intro e
    rw [hf, List.mem_filter, ← containsStr_iff]
    exact Iff.rfl.and (by simp [entityMatches])
  · rw [find_entities_in_question, hf]
  · rw [find_entities_in_question, hf]
    exact (List.take_sublist 5 _).trans (List.filter_sublist _)
  · intro h8
    rw [find_entities_in_question, List.length_take]
    omega

/-- Witness for find_entities_spec: eight matching entities yield exactly
five results. -/
theorem find_entities_spec_witness :
    8 ≤ (foundEntities w4question w4nodes).length ∧
    (find_entities_in_question w4question w4nodes).length = 5 :=
  ⟨by decide, (find_entities_spec w4question w4nodes).2.2.2 (by decide)⟩

/-- C5: a community is relevant exactly when some question word longer than
three characters occurs inside its lowered theme or lowered specialty; the
retriever returns the first five relevant ids in iteration order; and the
global-query path falls back to the first ten community ids, so its result
is nonempty whenever at least one community exists. -/
theorem find_relevant_communities_spec (q : String)
    (summaries : List (String × CommSummary)) (hne : summaries ≠ []) :
    (∀ c : CommSummary, commRelevant q c = true ↔
        ∃ w ∈ wordsOf (lowerStr q), 3 < w.length ∧
          ((∃ pre post, (lowerStr c.theme).data = pre ++ w ++ post) ∨
           (∃ pre post, (lowerStr c.specialty).data = pre ++ w ++ post))) ∧
    find_relevant_communities q summaries =
      ((summaries.filter (fun p => commRelevant q p.2)).map Prod.fst).take 5 ∧
    answer_global_query_comms q summaries ≠ [] := by
  refine ⟨?_, ?_, ?_⟩
  · intro c
    rw [commRelevant, List.any_eq_true]
    constructor
    · rintro ⟨w, hw, hcond⟩
      rw [Bool.and_eq_true, decide_eq_true_iff, Bool.or_eq_true] at hcond
      refine ⟨w, hw, hcond.1, ?_⟩
      rcases hcond.2 with h | h
      · exact Or.inl ((hasSub_iff _ _).mp h)
      · exact Or.inr ((hasSub_iff _ _).mp h)
    · rintro ⟨w, hw, hlen, hsub⟩
      refine ⟨w, hw, ?_⟩
      rw [Bool.and_eq_true, decide_eq_true_iff, Bool.or_eq_true]
      refine ⟨hlen, ?_⟩
      rcases hsub with h | h
      · exact Or.inl ((hasSub_iff _ _).mpr h)
      · exact Or.inr ((hasSub_iff _ _).mpr h)
  · rw [find_relevant_communities, relevantComms_eq_filter]
  · rw [answer_global_query_comms]
    by_cases hr : (find_relevant_communities q summaries).isEmpty
    · rw [if_pos hr]
      cases summaries with
      | nil => exact absurd rfl hne
      | cons s ss => simp
    · rw [if_neg hr]
      intro h
      rw [h] at hr
      exact hr rfl

/-- Witness for find_relevant_communities_spec: one community, a question
hitting its theme, nonempty retrieval result. -/
theorem find_relevant_communities_spec_witness :
    ([ ("0", (⟨"Cardiovascular conditions", "Cardiology"⟩ : CommSummary)) ] :
        List (String × CommSummary)) ≠ [] ∧
    answer_global_query_comms "tell me about cardiovascular disease"
      [ ("0", ⟨"Cardiovascular conditions", "Cardiology"⟩) ] ≠ [] :=
  ⟨by simp,
    (find_relevant_communities_spec "tell me about cardiovascular disease"
      [ ("0", ⟨"Cardiovascular conditions", "Cardiology"⟩) ] (by simp)).2.2⟩

/-- C6: the embedded density equals the number of distinct internal
relationship types divided by the larger of one and the possible member
pair count; it is always nonnegative; and it vanishes exactly when the
community has no internal relationships. -/
theorem community_density_spec (members : List String) (rels : List MedRel) :
    communityDensity members rels =
      (internalTypeCount members rels : ℚ) /
        max 1 ((members.length : ℚ) * ((members.length : ℚ) - 1) / 2) ∧
    0 ≤ communityDensity members rels ∧
    (communityDensity members rels = 0 ↔ internalRelList members rels = []) := by
  have hden : (0 : ℚ) <
      max 1 ((members.length : ℚ) * ((members.length : ℚ) - 1) / 2) :=
    lt_of_lt_of_le one_pos (le_max_left _ _)
  refine ⟨rfl, ?_, ?_⟩
  · exact div_nonneg (Nat.cast_nonneg _) hden.le
  · rw [communityDensity, div_eq_zero_iff]
    constructor
    · rintro (h | h)
      · have h0 : internalTypeCount members rels = 0 := by exact_mod_cast h
        rw [internalTypeCount, List.length_eq_zero, List.dedup_eq_nil,
          List.map_eq_nil_iff] at h0
        exact h0
      · exact absurd h hden.ne'
    · intro h
      left
      rw [internalTypeCount, h]
      simp

/-- C9 counterexample: a successful generation call whose output fails JSON
parsing is recorded with the raw response as its summary and the success
flag true, not the deterministic fallback summary with the flag false. -/
theorem summarize_malformed_output_cex :
    summarize_community_with_claude c9data (.success "not json") none =
      ⟨"Medical Community 3 - Cardiology", "not json", true⟩ ∧
    (summarize_community_with_claude c9data (.success "not json") none).success
        = true ∧
    (summarize_community_with_claude c9data (.success "not json") none).summary
        ≠ fallbackSummary c9data := by
  refine ⟨rfl, rfl, by decide⟩

/-- C9 amended: an exception from the text-generation call is caught and
replaced by the deterministic fallback title and summary with the success
flag false, while the success flag of every produced record is true exactly
when the generation call itself did not raise (a malformed but delivered
response keeps success true and the raw text as summary). -/
theorem summarize_error_handling_spec (cd : CommunityData) (msg : String)
    (parsed : Option ParsedJson) (outcome : LLMOutcome) :
    summarize_community_with_claude cd (.failure msg) parsed =
      ⟨fallbackTitle cd, fallbackSummary cd, false⟩ ∧
    (summarize_community_with_claude cd outcome parsed).success =
      llmCallOk outcome := by
  refine ⟨rfl, ?_⟩
  cases outcome with
  | failure m => rfl
  | success r => cases parsed <;> rfl

theorem getScore_bumpScore_same (m : List (String × Nat)) (k : String)
    (d : Nat) :
    getScore (bumpScore m k d) k = getScore m k + d := by
  induction m with
  | nil => simp [bumpScore, getScore]
  | cons e rest ih =>
    by_cases h : e.1 = k
    · simp only [bumpScore, if_pos h, getScore, if_pos h]
    · simp only [bumpScore, if_neg h, getScore, if_neg h]
      exact ih

theorem getScore_bumpScore_ne (m : List (String × Nat)) (k k' : String)
    (d : Nat) (h : k' ≠ k) :
    getScore (bumpScore m k d) k' = getScore m k' := by
  induction m with
  | nil =>
    simp only [bumpScore, getScore]
    rw [if_neg (fun hc => h hc.symm)]
  | cons e rest ih =>
    by_cases he : e.1 = k
    · have hne : ¬ e.1 = k' := by
        rw [he]
        exact fun hc => h hc.symm
      simp only [bumpScore, if_pos he, getScore, if_neg hne]
    · simp only [bumpScore, if_neg he, getScore]
      by_cases h2 : e.1 = k'
      · rw [if_pos h2, if_pos h2]
      · rw [if_neg h2, if_neg h2]
        exact ih

theorem keys_bumpScore (m : List (String × Nat)) (k : String) (d : Nat) :
    (bumpScore m k d).map Prod.fst =
      if k ∈ m.map Prod.fst then m.map Prod.fst
      else m.map Prod.fst ++ [k] := by
  induction m with
  | nil => simp [bumpScore]
  | cons e rest ih =>
    by_cases h : e.1 = k
    · simp only [bumpScore, if_pos h, List.map_cons]
      rw [if_pos (by rw [← h]; exact List.mem_cons_self _ _)]
    · simp only [bumpScore, if_neg h, List.map_cons, ih]
      by_cases h2 : k ∈ rest.map Prod.fst
      · rw [if_pos h2, if_pos (List.mem_cons_of_mem _ h2)]
      · have hnc : k ∉ e.1 :: rest.map Prod.fst := by
          intro hc
          rcases List.mem_cons.mp hc with hc1 | hc2
          · exact h hc1.symm
          · exact h2 hc2
        rw [if_neg h2, if_neg hnc]
        simp

theorem keys_nodup_bumpScore (m : List (String × Nat)) (k : String) (d : Nat)
    (h : (m.map Prod.fst).Nodup) :
    ((bumpScore m k d).map Prod.fst).Nodup := by
  rw [keys_bumpScore]
  by_cases h2 : k ∈ m.map Prod.fst
  · rw [if_pos h2]
    exact h
  · rw [if_neg h2, List.nodup_append]
    refine ⟨h, List.nodup_singleton _, ?_⟩
    intro a ha hb
    rw [List.mem_singleton] at hb
    subst hb
    exact h2 ha

theorem mem_keys_bumpScore (m : List (String × Nat)) (k : String) (d : Nat)
    (c : String) (h : c ∈ (bumpScore m k d).map Prod.fst) :
    c ∈ m.map Prod.fst ∨ c = k := by
  rw [keys_bumpScore] at h
  by_cases h2 : k ∈ m.map Prod.fst
  · rw [if_pos h2] at h
    exact Or.inl h
  · rw [if_neg h2] at h
    rcases List.mem_append.mp h with h3 | h3
    · exact Or.inl h3
    · exact Or.inr (List.mem_singleton.mp h3)

theorem pos_bumpScore (m : List (String × Nat)) (k : String) (d : Nat)
    (hm : ∀ p ∈ m, 0 < p.2) (hd : 0 < d) :
    ∀ p ∈ bumpScore m k d, 0 < p.2 := by
  induction m with
  | nil =>
    intro p hp
    simp only [bumpScore, List.mem_singleton] at hp
    subst hp
    exact hd
  | cons e rest ih =>
    intro p hp
    by_cases h : e.1 = k
    · simp only [bumpScore, if_pos h] at hp
      rcases List.mem_cons.mp hp with rfl | hin
      · exact Nat.add_pos_left (hm e (List.mem_cons_self _ _)) d
      · exact hm p (List.mem_cons_of_mem _ hin)
    · simp only [bumpScore, if_neg h] at hp
      rcases List.mem_cons.mp hp with rfl | hin
      · exact hm p (List.mem_cons_self _ _)
      · exact ih (fun q hq => hm q (List.mem_cons_of_mem _ hq)) p hin

theorem getScore_eq_zero_of_notin (m : List (String × Nat)) (c : String)
    (h : c ∉ m.map Prod.fst) : getScore m c = 0 := by
  induction m with
  | nil => rfl
  | cons e rest ih =>
    rw [List.map_cons] at h
    have h1 : ¬ e.1 = c := fun hc => h (hc ▸ List.mem_cons_self _ _)
    simp only [getScore, if_neg h1]
    exact ih (fun hc => h (List.mem_cons_of_mem _ hc))

theorem getScore_entry (m : List (String × Nat))
    (h : (m.map Prod.fst).Nodup) (p : String × Nat) (hp : p ∈ m) :
    getScore m p.1 = p.2 := by
  induction m with
  | nil => cases hp
  | cons e rest ih =>
    rw [List.map_cons, List.nodup_cons] at h
    rcases List.mem_cons.mp hp with rfl | hin
    · simp [getScore]
    · have hne : ¬ e.1 = p.1 := fun hc =>
        h.1 (hc ▸ List.mem_map_of_mem Prod.fst hin)
      simp only [getScore, if_neg hne]
      exact ih h.2 hin

theorem getScore_scoreFold_notin (t : String) (c : String) :
    ∀ (cats : List (String × List String)) (sc : List (String × Nat)),
      c ∉ cats.map Prod.fst →
      getScore (scoreFold cats sc t) c = getScore sc c := by
  intro cats
  induction cats with
  | nil =>
    intro sc h
    rfl
  | cons p cs ih =>
    intro sc h
    rw [List.map_cons] at h
    have h1 : c ≠ p.1 := fun hc => h (hc ▸ List.mem_cons_self _ _)
    have h2 : c ∉ cs.map Prod.fst := fun hc => h (List.mem_cons_of_mem _ hc)
    simp only [scoreFold]
    rw [ih _ h2]
    by_cases h0 : hitCount t p.2 = 0
    · rw [if_pos h0]
    · rw [if_neg h0, getScore_bumpScore_ne _ _ _ _ h1]

theorem getScore_scoreFold_mem (t : String) (c : String) (kws : List String) :
    ∀ (cats : List (String × List String)) (sc : List (String × Nat)),
      (cats.map Prod.fst).Nodup → (c, kws) ∈ cats →
      getScore (scoreFold cats sc t) c = getScore sc c + hitCount t kws := by
  intro cats
  induction cats with
  | nil =>
    intro sc hn hm
    cases hm
  | cons p cs ih =>
    intro sc hn hm
    rw [List.map_cons, List.nodup_cons] at hn
    rcases List.mem_cons.mp hm with heq | hin
    · have hc1 : p.1 = c := by rw [← heq]
      have hc2 : p.2 = kws := by rw [← heq]
      have hnotin : c ∉ cs.map Prod.fst := hc1 ▸ hn.1
      simp only [scoreFold]
      rw [getScore_scoreFold_notin t c cs _ hnotin, hc2]
      by_cases h0 : hitCount t kws = 0
      · rw [if_pos h0, h0]
        omega
      · rw [if_neg h0, hc1, getScore_bumpScore_same]
    · have hne : c ≠ p.1 := by
        intro hc
        exact hn.1 (hc ▸ List.mem_map_of_mem Prod.fst hin)
      simp only [scoreFold]
      rw [ih _ hn.2 hin]
      by_cases h0 : hitCount t p.2 = 0
      · rw [if_pos h0]
      · rw [if_neg h0, getScore_bumpScore_ne _ _ _ _ hne]

theorem keys_scoreFold_sub (t : String) (c : String) :
    ∀ (cats : List (String × List String)) (sc : List (String × Nat)),
      c ∈ (scoreFold cats sc t).map Prod.fst →
      c ∈ sc.map Prod.fst ∨ c ∈ cats.map Prod.fst := by
  intro cats
  induction cats with
  | nil =>
    intro sc h
    exact Or.inl h
  | cons p cs ih =>
    intro sc h
    simp only [scoreFold] at h
    rcases ih _ h with h1 | h1
    · by_cases h0 : hitCount t p.2 = 0
      · rw [if_pos h0] at h1
        exact Or.inl h1
      · rw [if_neg h0] at h1
        rcases mem_keys_bumpScore _ _ _ _ h1 with h2 | h2
        · exact Or.inl h2
        · refine Or.inr ?_
          rw [List.map_cons, h2]
          exact List.mem_cons_self _ _
    · refine Or.inr ?_
      rw [List.map_cons]
      exact List.mem_cons_of_mem _ h1

theorem keys_nodup_scoreFold (t : String) :
    ∀ (cats : List (String × List String)) (sc : List (String × Nat)),
      (sc.map Prod.fst).Nodup →
      ((scoreFold cats sc t).map Prod.fst).Nodup := by
  intro cats
  induction cats with
  | nil =>
    intro sc h
    exact h
  | cons p cs ih =>
    intro sc h
    simp only [scoreFold]
    apply ih
    by_cases h0 : hitCount t p.2 = 0
    · rw [if_pos h0]
      exact h
    · rw [if_neg h0]
      exact keys_nodup_bumpScore _ _ _ h

theorem pos_scoreFold (t : String) :
    ∀ (cats : List (String × List String)) (sc : List (String × Nat)),
      (∀ p ∈ sc, 0 < p.2) → ∀ q ∈ scoreFold cats sc t, 0 < q.2 := by
  intro cats
  induction cats with
  | nil =>
    intro sc h
    exact h
  | cons p cs ih =>
    intro sc h
    simp only [scoreFold]
    apply ih
    by_cases h0 : hitCount t p.2 = 0
    · rw [if_pos h0]
      exact h
    · rw [if_neg h0]
      exact pos_bumpScore _ _ _ h (Nat.pos_of_ne_zero h0)

theorem getScore_specialtyScoresAux (ents : List (String × EntityData))
    (c : String) (kws : List String)
    (hn : (specialtyKeywords.map Prod.fst).Nodup)
    (hm : (c, kws) ∈ specialtyKeywords) :
    ∀ (names : List String) (sc : List (String × Nat)),
      getScore (specialtyScoresAux names ents sc) c =
        getScore sc c + categoryScore names ents kws := by
  intro names
  induction names with
  | nil =>
    intro sc
    simp [specialtyScoresAux, categoryScore]
  | cons n ns ih =>
    intro sc
    simp only [specialtyScoresAux, categoryScore]
    rw [ih, getScore_scoreFold_mem _ _ _ _ _ hn hm]
    omega

theorem keys_specialtyScoresAux_sub (ents : List (String × EntityData))
    (c : String) :
    ∀ (names : List String) (sc : List (String × Nat)),
      c ∈ (specialtyScoresAux names ents sc).map Prod.fst →
      c ∈ sc.map Prod.fst ∨ c ∈ specialtyKeywords.map Prod.fst := by
  intro names
  induction names with
  | nil =>
    intro sc h
    exact Or.inl h
  | cons n ns ih =>
    intro sc h
    simp only [specialtyScoresAux] at h
    rcases ih _ h with h1 | h1
    · exact keys_scoreFold_sub _ _ _ _ h1
    · exact Or.inr h1

theorem keys_nodup_specialtyScoresAux (ents : List (String × EntityData)) :
    ∀ (names : List String) (sc : List (String × Nat)),
      (sc.map Prod.fst).Nodup →
      ((specialtyScoresAux names ents sc).map Prod.fst).Nodup := by
  intro names
  induction names with
  | nil =>
    intro sc h
    exact h
  | cons n ns ih =>
    intro sc h
    exact ih _ (keys_nodup_scoreFold _ _ _ h)

theorem pos_specialtyScoresAux (ents : List (String × EntityData)) :
    ∀ (names : List String) (sc : List (String × Nat)),
      (∀ p ∈ sc, 0 < p.2) →
      ∀ q ∈ specialtyScoresAux names ents sc, 0 < q.2 := by
  intro names
  induction names with
  | nil =>
    intro sc h
    exact h
  | cons n ns ih =>
    intro sc h
    exact ih _ (pos_scoreFold _ _ _ h)

theorem maxFold_mem : ∀ (l : List (String × Nat)) (p : String × Nat),
    maxFold p l ∈ p :: l := by
  intro l
  induction l with
  | nil =>
    intro p
    exact List.mem_cons_self _ _
  | cons q qs ih =>
    intro p
    simp only [maxFold]
    by_cases hc : p.2 < q.2
    · rw [if_pos hc]
      rcases List.mem_cons.mp (ih q) with h | h
      · rw [h]
        exact List.mem_cons_of_mem _ (List.mem_cons_self _ _)
      · exact List.mem_cons_of_mem _ (List.mem_cons_of_mem _ h)
    · rw [if_neg hc]
      rcases List.mem_cons.mp (ih p) with h | h
      · rw [h]
        exact List.mem_cons_self _ _
      · exact List.mem_cons_of_mem _ (List.mem_cons_of_mem _ h)

theorem maxFold_le : ∀ (l : List (String × Nat)) (p : String × Nat),
    p.2 ≤ (maxFold p l).2 ∧ ∀ q ∈ l, q.2 ≤ (maxFold p l).2 := by
  intro l
  induction l with
  | nil =>
    intro p
    exact ⟨le_refl _, fun q hq => absurd hq (List.not_mem_nil _)⟩
  | cons q qs ih =>
    intro p
    simp only [maxFold]
    by_cases hc : p.2 < q.2
    · rw [if_pos hc]
      rcases ih q with ⟨h1, h2⟩
      refine ⟨le_trans (le_of_lt hc) h1, ?_⟩
      intro r hr
      rcases List.mem_cons.mp hr with rfl | hr2
      · exact h1
      · exact h2 r hr2
    · rw [if_neg hc]
      rcases ih p with ⟨h1, h2⟩
      refine ⟨h1, ?_⟩
      intro r hr
      rcases List.mem_cons.mp hr with rfl | hr2
      · exact le_trans (Nat.le_of_not_lt hc) h1
      · exact h2 r hr2

theorem maxFold_first_max : ∀ (l : List (String × Nat)) (p : String × Nat),
    ∃ l1 l2, p :: l = l1 ++ maxFold p l :: l2 ∧
      (∀ q ∈ p :: l, q.2 ≤ (maxFold p l).2) ∧
      (∀ q ∈ l1, q.2 < (maxFold p l).2) := by
  intro l
  induction l with
  | nil =>
    intro p
    refine ⟨[], [], rfl, ?_, ?_⟩
    · intro q hq
      rw [List.mem_singleton] at hq
      subst hq
      exact le_refl _
    · intro q hq
      exact absurd hq (List.not_mem_nil _)
  | cons q qs ih =>
    intro p
    simp only [maxFold]
    by_cases hc : p.2 < q.2
    · rw [if_pos hc]
      rcases ih q with ⟨l1, l2, hdec, hle, hlt⟩
      refine ⟨p :: l1, l2, ?_, ?_, ?_⟩
      · rw [List.cons_append, ← hdec]
      · intro r hr
        rcases List.mem_cons.mp hr with rfl | hr2
        · exact le_of_lt (lt_of_lt_of_le hc (hle q (List.mem_cons_self _ _)))
        · exact hle r hr2
      · intro r hr
        rcases List.mem_cons.mp hr with rfl | hr2
        · exact lt_of_lt_of_le hc (hle q (List.mem_cons_self _ _))
        · exact hlt r hr2
    · rw [if_neg hc]
      rcases ih p with ⟨l1, l2, hdec, hle, hlt⟩
      cases l1 with
      | nil =>
        rw [List.nil_append] at hdec
        injection hdec with h1 h2
        refine ⟨[], q :: qs, ?_, ?_, ?_⟩
        · rw [List.nil_append, ← h1]
        · intro r hr
          rcases List.mem_cons.mp hr with rfl | hr2
          · exact hle r (List.mem_cons_self _ _)
          · rcases List.mem_cons.mp hr2 with rfl | hr3
            · exact le_trans (Nat.le_of_not_lt hc)
                (hle p (List.mem_cons_self _ _))
            · exact hle r (List.mem_cons_of_mem _ hr3)
        · intro r hr
          exact absurd hr (List.not_mem_nil _)
      | cons a t =>
        rw [List.cons_append] at hdec
        injection hdec with h1 h2
        have hp2 : p.2 < (maxFold p qs).2 := by
          have he : p.2 = a.2 := congrArg Prod.snd h1
          rw [he]
          exact hlt a (List.mem_cons_self _ _)
        refine ⟨p :: q :: t, l2, ?_, ?_, ?_⟩
        · rw [List.cons_append, List.cons_append, ← h2]
        · intro r hr
          rcases List.mem_cons.mp hr with rfl | hr2
          · exact hle r (List.mem_cons_self _ _)
          · rcases List.mem_cons.mp hr2 with rfl | hr3
            · exact le_of_lt (lt_of_le_of_lt (Nat.le_of_not_lt hc) hp2)
            · exact hle r (List.mem_cons_of_mem _ hr3)
        · intro r hr
          rcases List.mem_cons.mp hr with rfl | hr2
          · exact hp2
          · rcases List.mem_cons.mp hr2 with rfl | hr3
            · exact lt_of_le_of_lt (Nat.le_of_not_lt hc) hp2
            · exact hlt r (List.mem_cons_of_mem _ hr3)

theorem specKeys_nodup : (specialtyKeywords.map Prod.fst).Nodup := by
  decide

theorem gm_notin_specKeys :
    "General Medicine" ∉ specialtyKeywords.map Prod.fst := by
  decide

/-- C7 counterexample: over the two-condition community with member order
liver then heart, Cardiology and Gastroenterology tie with cumulative score
one each, Cardiology is declared first, yet the specialty resolves to
Gastroenterology (the category touched first during the entity scan), so
ties are not broken by category declaration order. -/
theorem specialty_tie_decl_order_cex :
    determine_medical_specialty c7names c7ents = "Gastroenterology" ∧
    categoryScore c7names c7ents (keywordsOfCat "Cardiology") = 1 ∧
    categoryScore c7names c7ents (keywordsOfCat "Gastroenterology") = 1 ∧
    (specialtyKeywords.map Prod.fst).indexOf "Cardiology" <
      (specialtyKeywords.map Prod.fst).indexOf "Gastroenterology" ∧
    determine_medical_specialty c7names c7ents ≠ "Cardiology" := by
  refine ⟨by decide, by decide, by decide, by decide, by decide⟩

/-- C7 amended: the specialty is General Medicine exactly when no category
scores a single keyword hit over the members; otherwise it is the name of a
declared category whose cumulative hit count is maximal, and ties are
broken by the order in which categories first score a hit during the member
scan, not by declaration order: the entries of the first-touch-ordered
score map carry exactly the cumulative category scores, and the chosen
label is the key of the first entry of that map attaining the maximal
score (every entry strictly before it scores strictly less). -/
theorem determine_medical_specialty_spec (names : List String)
    (ents : List (String × EntityData)) :
    (determine_medical_specialty names ents = "General Medicine" ↔
      ∀ p ∈ specialtyKeywords, categoryScore names ents p.2 = 0) ∧
    (∀ p ∈ specialtyKeywords, 0 < categoryScore names ents p.2 →
      ∃ q ∈ specialtyKeywords,
        determine_medical_specialty names ents = q.1 ∧
        ∀ r ∈ specialtyKeywords,
          categoryScore names ents r.2 ≤ categoryScore names ents q.2) ∧
    (∀ q ∈ specialtyScores names ents,
      q.1 ∈ specialtyKeywords.map Prod.fst ∧
      ∀ kws, (q.1, kws) ∈ specialtyKeywords →
        q.2 = categoryScore names ents kws) ∧
    (specialtyScores names ents ≠ [] →
      ∃ l1 m l2, specialtyScores names ents = l1 ++ m :: l2 ∧
        determine_medical_specialty names ents = m.1 ∧
        (∀ q ∈ specialtyScores names ents, q.2 ≤ m.2) ∧
        (∀ q ∈ l1, q.2 < m.2)) := by
  have hnodup : ((specialtyScores names ents).map Prod.fst).Nodup :=
    keys_nodup_specialtyScoresAux ents names [] (by simp)
  have hpos : ∀ p ∈ specialtyScores names ents, 0 < p.2 :=
    pos_specialtyScoresAux ents names [] (by simp)
  have hkeys : ∀ c, c ∈ (specialtyScores names ents).map Prod.fst →
      c ∈ specialtyKeywords.map Prod.fst := by
    intro c hc
    rcases keys_specialtyScoresAux_sub ents c names [] hc with h | h
    · simp at h
    · exact h
  have hbridge : ∀ p ∈ specialtyKeywords,
      getScore (specialtyScores names ents) p.1 =
        categoryScore names ents p.2 := by
    intro p hp
    have h := getScore_specialtyScoresAux ents p.1 p.2 specKeys_nodup hp names []
    simpa [specialtyScores, getScore] using h
  have hC : ∀ q ∈ specialtyScores names ents,
      q.1 ∈ specialtyKeywords.map Prod.fst ∧
      ∀ kws, (q.1, kws) ∈ specialtyKeywords →
        q.2 = categoryScore names ents kws := by
    intro q hq
    refine ⟨hkeys _ (List.mem_map_of_mem Prod.fst hq), ?_⟩
    intro kws hkws
    have hb := hbridge (q.1, kws) hkws
    have hg := getScore_entry _ hnodup q hq
    rw [← hg]
    exact hb
  rcases hE : specialtyScores names ents with _ | ⟨e, rest⟩
  · have hres : determine_medical_specialty names ents = "General Medicine" := by
      simp only [determine_medical_specialty, hE, pyMaxBySnd]
    refine ⟨⟨?_, ?_⟩, ?_, hE ▸ hC, ?_⟩
    · intro _ p hp
      have hb := hbridge p hp
      rw [hE] at hb
      simpa [getScore] using hb.symm
    · intro _
      exact hres
    · intro p hp hposc
      have hb := hbridge p hp
      rw [hE] at hb
      simp only [getScore] at hb
      omega
    · intro hne'
      exact absurd rfl hne'
  · have hmem : maxFold e rest ∈ specialtyScores names ents := by
      rw [hE]
      exact maxFold_mem rest e
    have hressome :
        determine_medical_specialty names ents = (maxFold e rest).1 := by
      simp only [determine_medical_specialty, hE, pyMaxBySnd]
    have hkeymem : (maxFold e rest).1 ∈ specialtyKeywords.map Prod.fst :=
      hkeys _ (List.mem_map_of_mem Prod.fst hmem)
    have hne_gm : determine_medical_specialty names ents ≠ "General Medicine" := by
      rw [hressome]
      intro hc
      rw [hc] at hkeymem
      exact gm_notin_specKeys hkeymem
    refine ⟨⟨?_, ?_⟩, ?_, hE ▸ hC, ?_⟩
    · intro hgm
      exact absurd hgm hne_gm
    · intro hall
      exfalso
      have hein : e ∈ specialtyScores names ents := by
        rw [hE]
        exact List.mem_cons_self _ _
      have hepos := hpos e hein
      have hekey : e.1 ∈ specialtyKeywords.map Prod.fst :=
        hkeys _ (List.mem_map_of_mem Prod.fst hein)
      rcases List.mem_map.mp hekey with ⟨p, hp, hfst⟩
      have hb := hbridge p hp
      have hg := getScore_entry _ hnodup e hein
      rw [hfst] at hb
      rw [hb] at hg
      have h0 := hall p hp
      omega
    · intro p hp hposc
      rcases List.mem_map.mp hkeymem with ⟨q, hq, hqfst⟩
      refine ⟨q, hq, ?_, ?_⟩
      · rw [hressome, hqfst]
      · intro r hr
        have hbq := hbridge q hq
        have hgq : getScore (specialtyScores names ents) (maxFold e rest).1 =
            (maxFold e rest).2 :=
          getScore_entry _ hnodup _ hmem
        rw [hqfst] at hbq
        have hq2 : categoryScore names ents q.2 = (maxFold e rest).2 := by
          rw [← hbq, hgq]
        have hbr := hbridge r hr
        rw [hq2]
        by_cases hrk : r.1 ∈ (specialtyScores names ents).map Prod.fst
        · rcases List.mem_map.mp hrk with ⟨pr, hpr, hprfst⟩
          have hgr : getScore (specialtyScores names ents) pr.1 = pr.2 :=
            getScore_entry _ hnodup pr hpr
          rw [hprfst] at hgr
          have hle : pr.2 ≤ (maxFold e rest).2 := by
            rw [hE] at hpr
            rcases List.mem_cons.mp hpr with rfl | hpr2
            · exact (maxFold_le rest pr).1
            · exact (maxFold_le rest e).2 pr hpr2
          rw [← hbr, hgr]
          exact hle
        · have h0 : getScore (specialtyScores names ents) r.1 = 0 :=
            getScore_eq_zero_of_notin _ _ hrk
          rw [← hbr, h0]
          exact Nat.zero_le _
    · intro _
      rcases maxFold_first_max rest e with ⟨l1, l2, hdec, hle, hlt⟩
      exact ⟨l1, maxFold e rest, l2, hdec, hressome, hle, hlt⟩

/-- Witness for determine_medical_specialty_spec: Cardiology scores
positively on the liver-heart community, so the chosen specialty is a
declared category of maximal cumulative score. -/
theorem determine_medical_specialty_spec_witness :
    ("Cardiology", keywordsOfCat "Cardiology") ∈ specialtyKeywords ∧
    0 < categoryScore c7names c7ents (keywordsOfCat "Cardiology") ∧
    (∃ q ∈ specialtyKeywords,
      determine_medical_specialty c7names c7ents = q.1 ∧
      ∀ r ∈ specialtyKeywords,
        categoryScore c7names c7ents r.2 ≤ categoryScore c7names c7ents q.2) :=
  ⟨by decide, by decide,
    (determine_medical_specialty_spec c7names c7ents).2.1
      ("Cardiology", keywordsOfCat "Cardiology") (by decide) (by decide)⟩

theorem anyNameHas_iff (ns kws : List String) :
    anyNameHas ns kws = true ↔ ∃ n ∈ ns, ∃ k ∈ kws, IsSubstrOf k n := by
  rw [anyNameHas, List.any_eq_true]
  constructor
  · rintro ⟨n, hn, hin⟩
    rw [List.any_eq_true] at hin
    rcases hin with ⟨k, hk, hc⟩
    exact ⟨n, hn, k, hk, (containsStr_iff _ _).mp hc⟩
  · rintro ⟨n, hn, k, hk, hs⟩
    exact ⟨n, hn, List.any_eq_true.mpr ⟨k, hk, (containsStr_iff _ _).mpr hs⟩⟩

theorem entityLookup_map_descr (ents : List (String × EntityData))
    (f : String → String) (name : String) :
    entityLookup
        (ents.map (fun p => (p.1, EntityData.mk p.2.etype (f p.1)))) name =
      (entityLookup ents name).map (fun d => EntityData.mk d.etype (f name)) := by
  induction ents with
  | nil => rfl
  | cons p rest ih =>
    simp only [List.map_cons, entityLookup]
    by_cases h : p.1 = name
    · rw [if_pos h, if_pos h, h]
      rfl
    · rw [if_neg h, if_neg h]
      exact ih

theorem typeOfName_map_descr (ents : List (String × EntityData))
    (f : String → String) (n : String) :
    typeOfName (ents.map (fun p => (p.1, EntityData.mk p.2.etype (f p.1)))) n =
      typeOfName ents n := by
  simp only [typeOfName, entityLookup_map_descr]
  cases entityLookup ents n <;> rfl

theorem typeOfNameD_map_descr (ents : List (String × EntityData))
    (f : String → String) (n : String) :
    typeOfNameD (ents.map (fun p => (p.1, EntityData.mk p.2.etype (f p.1)))) n =
      typeOfNameD ents n := by
  simp only [typeOfNameD, entityLookup_map_descr]
  cases entityLookup ents n <;> rfl

theorem typeCount_map_descr (names : List String)
    (ents : List (String × EntityData)) (f : String → String) (t : String) :
    typeCount names
        (ents.map (fun p => (p.1, EntityData.mk p.2.etype (f p.1)))) t =
      typeCount names ents t := by
  have hfun :
      (fun n => typeOfNameD
          (ents.map (fun p => (p.1, EntityData.mk p.2.etype (f p.1)))) n == t) =
        (fun n => typeOfNameD ents n == t) :=
    funext fun n => by rw [typeOfNameD_map_descr]
  simp only [typeCount, hfun]

theorem conditionNames_map_descr (names : List String)
    (ents : List (String × EntityData)) (f : String → String) :
    conditionNames names
        (ents.map (fun p => (p.1, EntityData.mk p.2.etype (f p.1)))) =
      conditionNames names ents := by
  have hfun :
      (fun n => typeOfName
          (ents.map (fun p => (p.1, EntityData.mk p.2.etype (f p.1)))) n ==
            "CONDITION") =
        (fun n => typeOfName ents n == "CONDITION") :=
    funext fun n => by rw [typeOfName_map_descr]
  simp only [conditionNames, hfun]

/-- C8 counterexample: a community whose single CONDITION member mentions
the heart only in its description receives the generic conditions theme,
not the cardiovascular theme, so member descriptions are never inspected by
the cascade (only names are). -/
theorem theme_description_ignored_cex :
    typeOfName c8ents "hf" = "CONDITION" ∧
    containsStr "heart failure" "heart" = true ∧
    generate_community_theme [ "hf" ] c8ents =
      "Medical conditions (1 conditions)" ∧
    generate_community_theme [ "hf" ] c8ents ≠
      "Cardiovascular conditions and treatments" := by
  refine ⟨by decide, by decide, by decide, by decide⟩

/-- C8 amended: the theme follows the fixed precedence cascade of the
claim, except that for communities containing CONDITION members only the
names of those members (not their descriptions) are inspected for the
domain substrings, in the fixed priority order cardiovascular, hepatic,
orthopedic, hematologic; with no CONDITION members the cascade falls
through MEDICATION, ANATOMY, LAB_VALUE and PROCEDURE themes, and finally
the generic mixed-entities theme.  The final conjunct establishes the
names-only correction universally: replacing every member's description by
an arbitrary function of its name never changes the theme. -/
theorem generate_community_theme_spec (names : List String)
    (ents : List (String × EntityData)) :
    (0 < typeCount names ents "CONDITION" →
      (CondNameMatch names ents [ "heart", "cardiac", "aortic" ] →
        generate_community_theme names ents =
          "Cardiovascular conditions and treatments") ∧
      (¬ CondNameMatch names ents [ "heart", "cardiac", "aortic" ] →
        CondNameMatch names ents [ "liver", "hepatic", "cirrhosis" ] →
        generate_community_theme names ents =
          "Liver diseases and complications") ∧
      (¬ CondNameMatch names ents [ "heart", "cardiac", "aortic" ] →
        ¬ CondNameMatch names ents [ "liver", "hepatic", "cirrhosis" ] →
        CondNameMatch names ents [ "hip", "knee", "bone" ] →
        generate_community_theme names ents =
          "Orthopedic conditions and procedures") ∧
      (¬ CondNameMatch names ents [ "heart", "cardiac", "aortic" ] →
        ¬ CondNameMatch names ents [ "liver", "hepatic", "cirrhosis" ] →
        ¬ CondNameMatch names ents [ "hip", "knee", "bone" ] →
        CondNameMatch names ents [ "blood", "anemia", "hemoglobin" ] →
        generate_community_theme names ents =
          "Hematological conditions and blood disorders") ∧
      (¬ CondNameMatch names ents [ "heart", "cardiac", "aortic" ] →
        ¬ CondNameMatch names ents [ "liver", "hepatic", "cirrhosis" ] →
        ¬ CondNameMatch names ents [ "hip", "knee", "bone" ] →
        ¬ CondNameMatch names ents [ "blood", "anemia", "hemoglobin" ] →
        generate_community_theme names ents =
          "Medical conditions (" ++
            toString (conditionNames names ents).length ++ " conditions)")) ∧
    (typeCount names ents "CONDITION" = 0 →
      (0 < typeCount names ents "MEDICATION" →
        generate_community_theme names ents =
          "Medications and treatments (" ++
            toString (typeCount names ents "MEDICATION") ++ " medications)") ∧
      (typeCount names ents "MEDICATION" = 0 →
        0 < typeCount names ents "ANATOMY" →
        generate_community_theme names ents =
          "Anatomical structures (" ++
            toString (typeCount names ents "ANATOMY") ++ " structures)") ∧
      (typeCount names ents "MEDICATION" = 0 →
        typeCount names ents "ANATOMY" = 0 →
        0 < typeCount names ents "LAB_VALUE" →
        generate_community_theme names ents =
          "Laboratory values and tests (" ++
            toString (typeCount names ents "LAB_VALUE") ++ " lab values)") ∧
      (typeCount names ents "MEDICATION" = 0 →
        typeCount names ents "ANATOMY" = 0 →
        typeCount names ents "LAB_VALUE" = 0 →
        0 < typeCount names ents "PROCEDURE" →
        generate_community_theme names ents =
          "Medical procedures (" ++
            toString (typeCount names ents "PROCEDURE") ++ " procedures)") ∧
      (typeCount names ents "MEDICATION" = 0 →
        typeCount names ents "ANATOMY" = 0 →
        typeCount names ents "LAB_VALUE" = 0 →
        typeCount names ents "PROCEDURE" = 0 →
        generate_community_theme names ents =
          "Mixed medical entities (" ++ toString names.length ++ " entities)")) ∧
    (∀ f : String → String,
      generate_community_theme names
          (ents.map (fun p => (p.1, EntityData.mk p.2.etype (f p.1)))) =
        generate_community_theme names ents) := by
  have hno : ∀ kws, ¬ CondNameMatch names ents kws →
      ¬ anyNameHas (conditionNames names ents) kws = true :=
    fun kws hn hb => hn ((anyNameHas_iff _ _).mp hb)
  refine ⟨fun hc => ⟨?_, ?_, ?_, ?_, ?_⟩, fun hc0 => ⟨?_, ?_, ?_, ?_, ?_⟩, ?_⟩
  · intro h1
    simp only [generate_community_theme]
    rw [if_pos hc, if_pos ((anyNameHas_iff _ _).mpr h1)]
  · intro h1 h2
    simp only [generate_community_theme]
    rw [if_pos hc, if_neg (hno _ h1), if_pos ((anyNameHas_iff _ _).mpr h2)]
  · intro h1 h2 h3
    simp only [generate_community_theme]
    rw [if_pos hc, if_neg (hno _ h1), if_neg (hno _ h2),
      if_pos ((anyNameHas_iff _ _).mpr h3)]
  · intro h1 h2 h3 h4
    simp only [generate_community_theme]
    rw [if_pos hc, if_neg (hno _ h1), if_neg (hno _ h2), if_neg (hno _ h3),
      if_pos ((anyNameHas_iff _ _).mpr h4)]
  · intro h1 h2 h3 h4
    simp only [generate_community_theme]
    rw [if_pos hc, if_neg (hno _ h1), if_neg (hno _ h2), if_neg (hno _ h3),
      if_neg (hno _ h4)]
  · intro h1
    simp only [generate_community_theme]
    rw [if_neg (by omega), if_pos h1]
  · intro h1 h2
    simp only [generate_community_theme]
    rw [if_neg (by omega), if_neg (by omega), if_pos h2]
  · intro h1 h2 h3
    simp only [generate_community_theme]
    rw [if_neg (by omega), if_neg (by omega), if_neg (by omega), if_pos h3]
  · intro h1 h2 h3 h4
    simp only [generate_community_theme]
    rw [if_neg (by omega), if_neg (by omega), if_neg (by omega),
      if_neg (by omega), if_pos h4]
  · intro h1 h2 h3 h4
    simp only [generate_community_theme]
    rw [if_neg (by omega), if_neg (by omega), if_neg (by omega),
      if_neg (by omega), if_neg (by omega)]
  · intro f
    have h1 := typeCount_map_descr names ents f
    have h2 := conditionNames_map_descr names ents f
    simp only [generate_community_theme, h1, h2]

/-- Witness for generate_community_theme_spec: one aortic CONDITION member
drives the cascade to the cardiovascular theme. -/
theorem generate_community_theme_spec_witness :
    0 < typeCount [ "aortic stenosis" ] w8ents "CONDITION" ∧
    generate_community_theme [ "aortic stenosis" ] w8ents =
      "Cardiovascular conditions and treatments" :=
  ⟨by decide,
    ((generate_community_theme_spec [ "aortic stenosis" ] w8ents).1
        (by decide)).1
      ⟨"aortic stenosis", by decide, "aortic", by decide, [],
        (" stenosis").data, by decide⟩⟩

/-- C10: a question the router classifies as local, in which no roster
entity name occurs as a lowered substring, is answered with the fixed
apology string by the early return of answer_local_query; the apology
constructor carries no neighbor, community or text-generation data, so
none of those collaborators is consulted. -/
theorem answer_local_no_entities_apology (q : String) (nodes : List MedEntity)
    (summaries : List (String × CommSummary))
    (hlocal : determine_query_type q = "local")
    (hnone : ∀ e ∈ nodes, ¬ IsSubstrOf (lowerStr e.name) (lowerStr q)) :
    query_medical_knowledge q nodes summaries =
      .localAns (.apology apology_text) ∧
    answer_local_query q nodes = .apology apology_text := by
  have hf : foundEntities q nodes = [] := by
    rw [foundEntities_eq_filter]
    refine List.filter_eq_nil_iff.mpr ?_
    intro e he
    have h1 := hnone e he
    rw [← containsStr_iff] at h1
    simpa [entityMatches] using h1
  have ha : answer_local_query q nodes = .apology apology_text := by
    rw [answer_local_query, find_entities_in_question, hf]
    rfl
  refine ⟨?_, ha⟩
  rw [query_medical_knowledge, if_pos hlocal, ha]

/-- Witness for answer_local_no_entities_apology: "what is flu" is local
and names no entity of a one-entity roster, so the apology is returned. -/
theorem answer_local_no_entities_apology_witness :
    determine_query_type "what is flu" = "local" ∧
    query_medical_knowledge "what is flu"
        [ ⟨"ventral hernia", "CONDITION", ""⟩ ] [] =
      .localAns (.apology apology_text) := by
  refine ⟨by decide, ?_⟩
  refine (answer_local_no_entities_apology "what is flu"
    [ ⟨"ventral hernia", "CONDITION", ""⟩ ] [] (by decide) ?_).1
  intro e he
  rw [← containsStr_iff]
  simp only [List.mem_singleton] at he
  subst he
  decide

end GraphRAG
